import Mathlib

/-!
Shallow embedding of the `AdvancedRAG` pipeline from `core/advanced_rag_eski.py`
(repository mkaan58/redpill-backend) and verification of the frozen claims about it.

Modelling conventions:
* Python strings are Lean `String`s (both indexed by code points). The handful of
  Python string primitives the pipeline uses (`strip`, `split('\n')`, slicing,
  `replace`, `join`) are re-implemented on `List Char` so that every definition
  is structurally recursive and evaluates by kernel reduction.
* The remote collaborators (Gemini generative calls, the embedding service, the
  Chroma vector store, the cross-encoder) are oracles passed in explicitly: a
  generative call's outcome is `GenOutcome` (exception or returned text), the
  store lookup for one sub-query is `Option (Option (List Triple))`
  (`none` = embedding failed and the query is skipped, `some none` = store
  exception, `some (some ts)` = returned triples), and the cross-encoder is an
  optional `Predictor` returning `none` on exception.
* Floats (distances, cross-encoder scores) are modelled as `ℚ`; the claims under
  verification involve only comparisons, never float rounding.
* Python's `hash(doc[:200])` fingerprint is modelled by the 200-character prefix
  itself (the spec describes the fingerprint as the first 200 characters; hash
  collisions between distinct prefixes are not modelled).
-/

namespace RedpillRAG

/-- Outcome of one call to the generative text service: an exception carrying a
detail message, or a successful response whose `.text` is the given string
(an empty string models a falsy/absent `response.text`). -/
inductive GenOutcome where
  | exn (msg : String)
  | ok (text : String)
deriving DecidableEq

/-- Python `str.strip()` on the character list: drop whitespace on both ends. -/
def trimChars (l : List Char) : List Char :=
  ((l.dropWhile Char.isWhitespace).reverse.dropWhile Char.isWhitespace).reverse

/-- Python `str.strip()`. -/
def pyStrip (s : String) : String := ⟨trimChars s.data⟩

/-- Python `str.split('\n')` on the character list: split at every newline,
keeping empty pieces (never returns an empty list of pieces). -/
def splitNl : List Char → List (List Char)
  | [] => [[]]
  | c :: rest =>
    match splitNl rest, c == '\n' with
    | pieces, true => [] :: pieces
    | [], false => [[c]]
    | h :: t, false => (c :: h) :: t

/-- Python `s.split('\n')` as a list of strings. -/
def pySplitLines (s : String) : List String := (splitNl s.data).map (fun l => (⟨l⟩ : String))

/-- First character of a string (used only where the source guarantees non-emptiness). -/
def firstChar (s : String) : Char := s.data.headI

/-- Python `doc[:n]` slicing. -/
def pyTake (s : String) (n : Nat) : String := ⟨s.data.take n⟩

/-- Python `sep.join(pieces)`. -/
def pyJoin (sep : String) : List String → String
  | [] => ""
  | [x] => x
  | x :: rest => x ++ sep ++ pyJoin sep rest

/-- Scanner underlying Python `s.replace(p, "")`: walk the string left to right;
at skip counter `0`, if the (non-empty) pattern is a prefix of the rest, drop it
by entering skip mode for its remaining characters; otherwise keep the head
character.  Non-overlapping left-to-right removal, exactly `str.replace` with an
empty replacement. -/
def removeOccAux (p : List Char) : List Char → Nat → List Char
  | [], _ => []
  | _ :: rest, Nat.succ skip => removeOccAux p rest skip
  | c :: rest, 0 =>
    if p ≠ [] ∧ p.isPrefixOf (c :: rest) then removeOccAux p rest (p.length - 1)
    else c :: removeOccAux p rest 0

/-- Python `s.replace(p, "")`. -/
def pyReplaceEmpty (s p : String) : String := ⟨removeOccAux p.data s.data 0⟩

/-- Occurrence test for a pattern in a character list (substring containment). -/
def containsList (p : List Char) : List Char → Bool
  | [] => p.isEmpty
  | c :: rest => p.isPrefixOf (c :: rest) || containsList p rest

/-- Substring containment on strings: does `s` contain `p`? -/
def containsPhrase (s p : String) : Bool := containsList p.data s.data

/-- The fixed forbidden hedging-phrase list (`softeners`, lines 364-368 of the
source), in source order. -/
def softeners : List String :=
  ["belki de", "olabilir", "bazı durumlarda",
   "her zaman değil", "genelleme yapmamak gerek",
   "yargılayıcı olmayın", "herkes farklıdır"]

/-- Post-processing of the raw generated answer (lines 370-371 of the source):
for each softener in list order, `answer = answer.replace(softener, "")`. -/
def removeSofteners (raw : String) : String :=
  softeners.foldl (fun a s => pyReplaceEmpty a s) raw

/-- Characters stripped by `q.lstrip('0123456789.- ')` in the source. -/
def markerChars : List Char := "0123456789.- ".data

/-- Loop body of the query-variation parser (lines 109-118 of the source):
skip empty lines; strip the line; keep it verbatim when its first character is
not a digit; when it starts with a digit and its (pre-strip) length exceeds 3,
strip leading digits, dots, dashes and spaces, trim, and keep the result when
non-empty. -/
def parseStep (queries : List String) (q : String) : List String :=
  if q ≠ "" then
    let q := pyStrip q
    if q ≠ "" ∧ ¬ (firstChar q).isDigit then queries ++ [q]
    else if q ≠ "" ∧ 3 < q.length then
      let cleaned := pyStrip ⟨q.data.dropWhile (fun c => markerChars.contains c)⟩
      if cleaned ≠ "" then queries ++ [cleaned] else queries
    else queries
  else queries

/-- The parsing loop of `generate_multi_queries`, folded over the response lines
starting from the already-collected queries. -/
def parse_generated (generated : List String) (queries0 : List String) : List String :=
  generated.foldl parseStep queries0

/-- Modelled from the amended claim C9 wording: per-line classification of one
response line.  A non-empty line is stripped; if its first character is not a
digit it is kept as is (leading non-digit bullet markers included); if it starts
with a digit it is kept only when its pre-strip length exceeds 3, with leading
digits/'.'/'-'/spaces stripped and the remainder trimmed, and dropped when that
leaves nothing. -/
def lineSpec (line : String) : Option String :=
  if line = "" then none
  else
    let q := pyStrip line
    if q = "" then none
    else if ¬ (firstChar q).isDigit then some q
    else if 3 < q.length then
      let cleaned := pyStrip ⟨q.data.dropWhile (fun c => markerChars.contains c)⟩
      if cleaned = "" then none else some cleaned
    else none

/-- English form of the original query (lines 61-75 of the source): the
translation call's stripped text when it succeeded with truthy text, otherwise
the original query. -/
def english_form (translateQ : GenOutcome) (original_query : String) : String :=
  match translateQ with
  | .exn _ => original_query
  | .ok t => if t ≠ "" then pyStrip t else original_query

/-- One retrieved (document, metadata, distance) triple from the vector store.
Metadata is opaque to the pipeline and modelled as a string. -/
structure Triple where
  doc : String
  meta : String
  dist : ℚ
deriving DecidableEq

/-- Aggregated retrieval result: three parallel lists, as in the source. -/
structure RetrievalResults where
  documents : List String
  metadatas : List String
  distances : List ℚ
deriving DecidableEq

/-- Loop state of `retrieve_documents`: the three growing parallel lists plus
the `seen_docs` fingerprint set (modelled as a list used only via membership). -/
structure RetState where
  documents : List String
  metadatas : List String
  distances : List ℚ
  seen : List (List Char)
deriving DecidableEq

/-- Fingerprint used for deduplication: the first 200 characters of the document
text (the source hashes this prefix; the hash is modelled as the prefix itself). -/
def fingerprint (d : String) : List Char := d.data.take 200

/-- Inner loop body of `retrieve_documents` (lines 164-176 of the source): keep
the triple and mark its fingerprint seen unless the fingerprint was already seen. -/
def addTriple (st : RetState) (t : Triple) : RetState :=
  if st.seen.contains (fingerprint t.doc) then st
  else ⟨st.documents ++ [t.doc], st.metadatas ++ [t.meta],
        st.distances ++ [t.dist], fingerprint t.doc :: st.seen⟩

/-- Per-query step of `retrieve_documents`: a failed embedding (`none`) or a
vector-store exception (`some none`) leaves the state unchanged; otherwise the
returned triples are folded in. -/
def retrieveStep (fetch : String → Option (Option (List Triple)))
    (st : RetState) (q : String) : RetState :=
  match fetch q with
  | some (some ts) => ts.foldl addTriple st
  | _ => st

/-- `AdvancedRAG.retrieve_documents` (lines 142-187 of the source), with the
embedding client and vector store abstracted into the `fetch` oracle (the
`n_per_query` bound is absorbed by the oracle, which returns the store's
result list for each query). -/
def retrieve_documents (fetch : String → Option (Option (List Triple)))
    (queries : List String) : RetrievalResults :=
  let final := queries.foldl (retrieveStep fetch) ⟨[], [], [], []⟩
  ⟨final.documents, final.metadatas, final.distances⟩

/-- Documents contributed by one sub-query (empty when the query is skipped). -/
def docsOf (fetch : String → Option (Option (List Triple))) (q : String) : List String :=
  match fetch q with
  | some (some ts) => ts.map (fun t => t.doc)
  | _ => []

/-- The flattened stream of documents produced by the vector store across the
sub-queries, in sub-query order. -/
def streamDocs (fetch : String → Option (Option (List Triple)))
    (queries : List String) : List String :=
  (queries.map (docsOf fetch)).flatten

/-- Modelled from the spec's dedup wording: keep, for each first-200-character
prefix group of the stream, exactly its first element, in order of first
occurrence. -/
def firstOfEachPrefix : List String → List String
  | [] => []
  | d :: rest =>
    d :: firstOfEachPrefix (rest.filter (fun d2 => fingerprint d2 != fingerprint d))
termination_by l => l.length
decreasing_by
  simp only [List.length_cons]
  exact Nat.lt_succ_of_le (List.length_filter_le _ _)

/-- Reference dedup fold: process a stream of documents with an explicit seen
set, keeping each document whose fingerprint is unseen. -/
def dedupSeen (seen : List (List Char)) : List String → List String
  | [] => []
  | d :: rest =>
    if seen.contains (fingerprint d) then dedupSeen seen rest
    else d :: dedupSeen (fingerprint d :: seen) rest

/-- Seen set after processing a stream of documents. -/
def seenAfter (seen : List (List Char)) : List String → List (List Char)
  | [] => seen
  | d :: rest =>
    if seen.contains (fingerprint d) then seenAfter seen rest
    else seenAfter (fingerprint d :: seen) rest

/-- The cross-encoder oracle: scores a list of (query, document-chunk) pairs,
or fails with an exception (`none`). -/
def Predictor : Type := List (String × String) → Option (List ℚ)

/-- Oracle bundle for one pipeline run: outcomes of the expander's translation
and variation calls, the per-sub-query retrieval oracle, the rerank stage's
query-translation outcome, the optional cross-encoder, and the outcome of the
final answer-generation call. -/
structure Env where
  translateQ : GenOutcome
  variations : GenOutcome
  fetch : String → Option (Option (List Triple))
  rerankTranslate : GenOutcome
  reranker : Option Predictor
  finalGen : GenOutcome

/-- `AdvancedRAG.generate_multi_queries` (lines 53-127 of the source): translate
to English, ask for variations, parse them after the English form, cap at 4; on
a failed or empty variations response return just the English form. -/
def generate_multi_queries (env : Env) (original_query : String) : List String :=
  let english_query := english_form env.translateQ original_query
  match env.variations with
  | .exn _ => [english_query]
  | .ok t =>
    if t = "" then [english_query]
    else
      let response_text := pyStrip t
      let queries :=
        if response_text ≠ "" then parse_generated (pySplitLines response_text) [english_query]
        else [english_query]
      queries.take 4

/-- Fallback result of `rerank_documents` (lines 193, 236, 242 of the source):
the first `top_k` documents in input order, paired with their positional index
as a pseudo-score. -/
def enumFallback (documents : List String) (top_k : Nat) : List (String × ℚ) :=
  (documents.take top_k).enum.map (fun p => (p.2, (p.1 : ℚ)))

/-- Query used for cross-encoder scoring (lines 198-213 of the source): when the
query has a non-ASCII character, the rerank translation call's stripped text if
it succeeded with truthy text, otherwise the query itself. -/
def query_for_ranking (rtrans : GenOutcome) (query : String) : String :=
  if query.data.any (fun c => decide (127 < c.toNat)) then
    match rtrans with
    | .exn _ => query
    | .ok t => if t ≠ "" then pyStrip t else query
  else query

/-- Python `doc[:400] if len(doc) > 400 else doc` (line 218 of the source). -/
def truncate400 (doc : String) : String :=
  if 400 < doc.length then pyTake doc 400 else doc

/-- The (query, document-chunk) pairs handed to the cross-encoder
(lines 216-219 of the source). -/
def mkPairs (rtrans : GenOutcome) (query : String) (documents : List String) :
    List (String × String) :=
  documents.map (fun doc => (query_for_ranking rtrans query, truncate400 doc))

/-- Stable insertion for the descending in-place sort
`doc_scores.sort(key=lambda x: x[1], reverse=True)`. -/
def insertDescBySnd (x : String × ℚ) : List (String × ℚ) → List (String × ℚ)
  | [] => [x]
  | y :: ys => if x.2 < y.2 then y :: insertDescBySnd x ys else x :: y :: ys

/-- Stable descending sort by score (Python's stable `list.sort` with
`reverse=True`). -/
def sortDescBySnd : List (String × ℚ) → List (String × ℚ)
  | [] => []
  | x :: xs => insertDescBySnd x (sortDescBySnd xs)

/-- Stable insertion for the ascending distance sort
`doc_dist_pairs.sort(key=lambda x: x[1])`. -/
def insertAscBySnd (x : String × ℚ) : List (String × ℚ) → List (String × ℚ)
  | [] => [x]
  | y :: ys => if y.2 < x.2 then y :: insertAscBySnd x ys else x :: y :: ys

/-- Stable ascending sort by distance (Python's stable `list.sort`). -/
def sortAscBySnd : List (String × ℚ) → List (String × ℚ)
  | [] => []
  | x :: xs => insertAscBySnd x (sortAscBySnd xs)

/-- `AdvancedRAG.rerank_documents` (lines 189-242 of the source): without a
reranker or documents, the positional fallback; otherwise score the truncated
pairs, sort descending by score (stably), fall back to positional order when
scoring raises or when the top 3 sorted scores are all below −10, else return
the top `top_k` scored pairs. -/
def rerank_documents (rtrans : GenOutcome) (reranker : Option Predictor)
    (query : String) (documents : List String) (top_k : Nat) : List (String × ℚ) :=
  match reranker with
  | none => enumFallback documents top_k
  | some r =>
    if documents.isEmpty then enumFallback documents top_k
    else
      match r (mkPairs rtrans query documents) with
      | none => enumFallback documents top_k
      | some scores =>
        let doc_scores := sortDescBySnd (documents.zip scores)
        if (doc_scores.take 3).all (fun p => decide (p.2 < -10)) then
          enumFallback documents top_k
        else doc_scores.take top_k

/-- The `final_documents` of `retrieve_context` (lines 257-271 of the source):
rerank to top 6 when a reranker is configured, otherwise sort the aggregated
documents by distance ascending (stably) and take the first 6. -/
def final_docs (env : Env) (query : String) (rr : RetrievalResults) : List String :=
  match env.reranker with
  | some _ => (rerank_documents env.rerankTranslate env.reranker query rr.documents 6).map Prod.fst
  | none => ((sortAscBySnd (rr.documents.zip rr.distances)).take 6).map Prod.fst

/-- The fixed separator joining the final documents into the context. -/
def contextSep : String := "\n\n---\n\n"

/-- `AdvancedRAG.retrieve_context` (lines 244-281 of the source), returning
(returned context, new `last_retrieved_context`).  On empty retrieval it returns
`""` before the assignment to `last_retrieved_context`, which therefore keeps
the caller-supplied previous value. -/
def retrieve_context (env : Env) (last : String) (query : String) : String × String :=
  let queries := generate_multi_queries env query
  let rr := retrieve_documents env.fetch queries
  if rr.documents.isEmpty then ("", last)
  else
    let context := pyJoin contextSep (final_docs env query rr)
    (context, context)

/-- Fixed message returned when no context is retrieved (line 294 of the source). -/
def noInfoMsg : String := "❌ İlgili bilgi bulunamadı. Lütfen sorunuzu yeniden ifade etmeyi deneyin."

/-- Fixed message returned when the generative response has no text (line 375). -/
def genFailMsg : String := "❌ Cevap oluşturulamadı. Lütfen tekrar deneyin."

/-- Prefix of the error string built in the except branch (line 379 of the
source, `f-string` with `str(e)` appended). -/
def errPrefix : String := "❌ Bir hata oluştu: "

/-- Result of one `answer` call: the returned text, whether the final
answer-generation call was issued, and the value of `last_retrieved_context`
after the call. -/
structure AnswerResult where
  text : String
  finalGenCalled : Bool
  lastCtx : String
deriving DecidableEq

/-- `AdvancedRAG.answer` (lines 283-379 of the source).  The persona prompt is
assembled from the history, context and query and handed to the generative
client; its outcome is the `finalGen` oracle, so the prompt text itself does not
appear in the model.  With empty context the fixed no-information message is
returned before any generative call; otherwise the call is issued and the text
post-processed, with the exception detail appended to the fixed error prefix in
the except branch. -/
def answer (env : Env) (last : String) (query : String) (_hist : String) : AnswerResult :=
  let rc := retrieve_context env last query
  let context := rc.1
  if context = "" then ⟨noInfoMsg, false, rc.2⟩
  else
    match env.finalGen with
    | .exn msg => ⟨errPrefix ++ msg, true, rc.2⟩
    | .ok t => if t ≠ "" then ⟨removeSofteners t, true, rc.2⟩ else ⟨genFailMsg, true, rc.2⟩

/-- Concrete oracle bundle: both expander calls fail, the vector store returns
no documents for every sub-query, no reranker, and the final generation would
succeed. -/
def envEmptyStore : Env :=
  ⟨.exn "", .exn "", fun _ => some (some []), .exn "", none, .ok "hi"⟩

/-- Concrete oracle bundle with an empty store, used for the frame-effect
counterexample. -/
def envEmptyStore2 : Env :=
  ⟨.exn "", .exn "", fun _ => some (some []), .exn "", none, .ok "hi"⟩

/-- Concrete oracle bundle: retrieval finds one document and the final
generative call raises an exception with detail message "boom". -/
def envGenError : Env :=
  ⟨.exn "", .exn "", fun _ => some (some [⟨"doc text", "m", 0⟩]), .exn "", none, .exn "boom"⟩

/-- Same as `envGenError` but with exception detail "other". -/
def envGenError2 : Env :=
  ⟨.exn "", .exn "", fun _ => some (some [⟨"doc text", "m", 0⟩]), .exn "", none, .exn "other"⟩

/-- Concrete oracle bundle: the translation call succeeds with whitespace-only
text and the variation call raises. -/
def envWhitespaceTranslate : Env :=
  ⟨.ok "   ", .exn "e", fun _ => some (some []), .exn "", none, .ok "x"⟩

/-- Concrete oracle bundle with failing expander calls (English form falls back
to the original query). -/
def envPlainExpand : Env :=
  ⟨.exn "", .exn "", fun _ => some (some []), .exn "", none, .ok "x"⟩

/-- Concrete oracle bundle whose variation call returns a bullet line and a
numbered short line. -/
def envBulletLines : Env :=
  ⟨.exn "e", .ok "- hey\n1. ab", fun _ => some (some []), .exn "", none, .ok "x"⟩

/-- Concrete oracle bundle without a reranker, for the context-assembly witness. -/
def envNoReranker : Env :=
  ⟨.exn "", .exn "", fun _ => some (some []), .exn "", none, .ok "x"⟩

/-- Concrete cross-encoder stub returning scores below the −10 threshold. -/
def predLow : Predictor := fun _ => some [-11, -12]

/-! ## Lemmas about the softener-removal scanner -/

theorem isPrefixOf_length_le (p : List Char) : ∀ s : List Char,
    p.isPrefixOf s = true → p.length ≤ s.length := by
  induction p with
  | nil => intro s _; simp
  | cons a as ih =>
    intro s h
    cases s with
    | nil => simp [List.isPrefixOf] at h
    | cons b bs =>
      simp only [List.isPrefixOf, Bool.and_eq_true] at h
      simpa using ih bs h.2

theorem removeOccAux_skip (p : List Char) : ∀ (s : List Char) (k : Nat),
    removeOccAux p s k = removeOccAux p (s.drop k) 0 := by
  intro s
  induction s with
  | nil => intro k; simp [removeOccAux]
  | cons c rest ih =>
    intro k
    cases k with
    | zero => rfl
    | succ k =>
      show removeOccAux p rest k = _
      rw [ih k, List.drop_succ_cons]

theorem removeOccAux_length_le (p : List Char) : ∀ (s : List Char) (k : Nat),
    (removeOccAux p s k).length ≤ s.length := by
  intro s
  induction s with
  | nil => intro k; simp [removeOccAux]
  | cons c rest ih =>
    intro k
    cases k with
    | succ k =>
      exact Nat.le_succ_of_le (ih k)
    | zero =>
      simp only [removeOccAux]
      split
      · exact Nat.le_succ_of_le (ih _)
      · simpa using ih 0

theorem removeOccAux_length_of_contains (p : List Char) (hp : p ≠ []) :
    ∀ s : List Char, containsList p s = true →
      (removeOccAux p s 0).length + p.length ≤ s.length := by
  intro s
  induction s with
  | nil =>
    intro h
    simp [containsList, List.isEmpty_iff, hp] at h
  | cons c rest ih =>
    intro h
    simp only [removeOccAux]
    split
    · next hcond =>
      rw [removeOccAux_skip]
      have h1 := removeOccAux_length_le p (rest.drop (p.length - 1)) 0
      have h2 := isPrefixOf_length_le p (c :: rest) hcond.2
      have h3 : (rest.drop (p.length - 1)).length = rest.length - (p.length - 1) :=
        List.length_drop _ _
      have h4 : 1 ≤ p.length := List.length_pos.mpr hp
      simp only [List.length_cons] at h2 ⊢
      omega
    · next hcond =>
      have hpre : ¬ p.isPrefixOf (c :: rest) = true := fun hx => hcond ⟨hp, hx⟩
      have h' : containsList p rest = true := by
        simp only [containsList, Bool.or_eq_true] at h
        exact h.resolve_left hpre
      have := ih h'
      simp only [List.length_cons]
      omega

theorem pyReplaceEmpty_length_le (s p : String) : (pyReplaceEmpty s p).length ≤ s.length :=
  removeOccAux_length_le p.data s.data 0

theorem foldl_pyReplaceEmpty_length_le (l : List String) : ∀ a : String,
    (l.foldl (fun a s => pyReplaceEmpty a s) a).length ≤ a.length := by
  induction l with
  | nil => intro a; simp
  | cons s rest ih =>
    intro a
    exact le_trans (ih (pyReplaceEmpty a s)) (pyReplaceEmpty_length_le a s)

/-- C3 counterexample: the claim "the returned answer contains no occurrence of
any forbidden phrase" is false.  On the raw text "bebelki delki de" the single
left-to-right removal of "belki de" deletes the middle occurrence, and the
surrounding pieces concatenate to a fresh occurrence of "belki de", which
survives the remaining softener passes into the returned answer. -/
theorem softener_survives_counterexample :
    "belki de" ∈ softeners ∧
      containsPhrase (removeSofteners "bebelki delki de") "belki de" = true := by
  decide

/-- C3 (amended): the post-processing never lengthens the raw text, and when the
raw text contains the first listed softener "belki de" (case-sensitively) at
least one occurrence is deleted, shrinking the text by at least that phrase's
8 characters.  Occurrences differing in case, or re-formed at a removal
junction, may survive (see the counterexample). -/
theorem removeSofteners_shortens (raw : String) :
    (removeSofteners raw).length ≤ raw.length ∧
      (containsPhrase raw "belki de" = true →
        (removeSofteners raw).length + 8 ≤ raw.length) := by
  constructor
  · exact foldl_pyReplaceEmpty_length_le softeners raw
  · intro hc
    have h1 : (pyReplaceEmpty raw "belki de").length + 8 ≤ raw.length := by
      have h := removeOccAux_length_of_contains ("belki de" : String).data (by decide) raw.data hc
      have hlen : ("belki de" : String).data.length = 8 := rfl
      rw [hlen] at h
      exact h
    have h2 : (removeSofteners raw).length ≤ (pyReplaceEmpty raw "belki de").length := by
      have e : removeSofteners raw
          = (softeners.tail).foldl (fun a s => pyReplaceEmpty a s) (pyReplaceEmpty raw "belki de") :=
        rfl
      rw [e]
      exact foldl_pyReplaceEmpty_length_le _ _
    omega

/-- Witness for the amended C3 theorem at the concrete raw text "xbelki dey". -/
theorem removeSofteners_shortens_witness :
    (removeSofteners "xbelki dey").length ≤ ("xbelki dey" : String).length ∧
      (removeSofteners "xbelki dey").length + 8 ≤ ("xbelki dey" : String).length :=
  ⟨(removeSofteners_shortens "xbelki dey").1,
   (removeSofteners_shortens "xbelki dey").2 (by decide)⟩

/-! ## Lemmas about the retrieval dedup fold -/

theorem foldl_addTriple_spec : ∀ (ts : List Triple) (st : RetState),
    (ts.foldl addTriple st).documents
        = st.documents ++ dedupSeen st.seen (ts.map (fun t => t.doc))
      ∧ (ts.foldl addTriple st).seen = seenAfter st.seen (ts.map (fun t => t.doc)) := by
  intro ts
  induction ts with
  | nil => intro st; simp [dedupSeen, seenAfter]
  | cons t ts ih =>
    intro st
    simp only [List.foldl_cons, List.map_cons]
    by_cases h : fingerprint t.doc ∈ st.seen
    · have e : addTriple st t = st := by simp [addTriple, h]
      rw [e]
      rcases ih st with ⟨h1, h2⟩
      exact ⟨by rw [h1]; simp [dedupSeen, h], by rw [h2]; simp [seenAfter, h]⟩
    · have e : addTriple st t = ⟨st.documents ++ [t.doc], st.metadatas ++ [t.meta],
          st.distances ++ [t.dist], fingerprint t.doc :: st.seen⟩ := by
        simp [addTriple, h]
      rw [e]
      rcases ih ⟨st.documents ++ [t.doc], st.metadatas ++ [t.meta],
          st.distances ++ [t.dist], fingerprint t.doc :: st.seen⟩ with ⟨h1, h2⟩
      constructor
      · rw [h1]; simp [dedupSeen, h, List.append_assoc]
      · rw [h2]; simp [seenAfter, h]

theorem seenAfter_append (xs : List String) : ∀ (seen : List (List Char)) (ys : List String),
    seenAfter seen (xs ++ ys) = seenAfter (seenAfter seen xs) ys := by
  induction xs with
  | nil => intro seen ys; simp [seenAfter]
  | cons d rest ih =>
    intro seen ys
    by_cases h : fingerprint d ∈ seen <;> simp [seenAfter, h, ih]

theorem dedupSeen_append (xs : List String) : ∀ (seen : List (List Char)) (ys : List String),
    dedupSeen seen (xs ++ ys) = dedupSeen seen xs ++ dedupSeen (seenAfter seen xs) ys := by
  induction xs with
  | nil => intro seen ys; simp [dedupSeen, seenAfter]
  | cons d rest ih =>
    intro seen ys
    by_cases h : fingerprint d ∈ seen <;> simp [dedupSeen, seenAfter, h, ih]

theorem streamDocs_cons (fetch : String → Option (Option (List Triple)))
    (q : String) (qs : List String) :
    streamDocs fetch (q :: qs) = docsOf fetch q ++ streamDocs fetch qs := by
  simp [streamDocs]

theorem foldl_retrieveStep_spec (fetch : String → Option (Option (List Triple))) :
    ∀ (queries : List String) (st : RetState),
    (queries.foldl (retrieveStep fetch) st).documents
        = st.documents ++ dedupSeen st.seen (streamDocs fetch queries)
      ∧ (queries.foldl (retrieveStep fetch) st).seen
        = seenAfter st.seen (streamDocs fetch queries) := by
  intro queries
  induction queries with
  | nil => intro st; simp [streamDocs, dedupSeen, seenAfter]
  | cons q qs ih =>
    intro st
    simp only [List.foldl_cons, streamDocs_cons]
    rcases hf : fetch q with _ | ts
    · have e : retrieveStep fetch st q = st := by simp [retrieveStep, hf]
      have ed : docsOf fetch q = [] := by simp [docsOf, hf]
      rw [e, ed]
      simpa using ih st
    · rcases ts with _ | ts
      · have e : retrieveStep fetch st q = st := by simp [retrieveStep, hf]
        have ed : docsOf fetch q = [] := by simp [docsOf, hf]
        rw [e, ed]
        simpa using ih st
      · have e : retrieveStep fetch st q = ts.foldl addTriple st := by simp [retrieveStep, hf]
        have ed : docsOf fetch q = ts.map (fun t => t.doc) := by simp [docsOf, hf]
        rw [e, ed]
        rcases foldl_addTriple_spec ts st with ⟨h1, h2⟩
        rcases ih (ts.foldl addTriple st) with ⟨g1, g2⟩
        constructor
        · rw [g1, h1, h2, dedupSeen_append, List.append_assoc]
        · rw [g2, h2, seenAfter_append]

theorem dedupSeen_eq_firstOfEachPrefix : ∀ (s : List String) (seen : List (List Char)),
    dedupSeen seen s
      = firstOfEachPrefix (s.filter (fun d => !(seen.contains (fingerprint d)))) := by
  intro s
  induction s with
  | nil => intro seen; simp [dedupSeen, firstOfEachPrefix]
  | cons d rest ih =>
    intro seen
    by_cases h : fingerprint d ∈ seen
    · have e : dedupSeen seen (d :: rest) = dedupSeen seen rest := by simp [dedupSeen, h]
      have e2 : List.filter (fun d2 => !(seen.contains (fingerprint d2))) (d :: rest)
          = List.filter (fun d2 => !(seen.contains (fingerprint d2))) rest := by
        simp [List.filter_cons, h]
      rw [e, e2, ih seen]
    · have e : dedupSeen seen (d :: rest) = d :: dedupSeen (fingerprint d :: seen) rest := by
        simp [dedupSeen, h]
      have e2 : List.filter (fun d2 => !(seen.contains (fingerprint d2))) (d :: rest)
          = d :: List.filter (fun d2 => !(seen.contains (fingerprint d2))) rest := by
        simp [List.filter_cons, h]
      rw [e, e2, firstOfEachPrefix]
      congr 1
      rw [ih (fingerprint d :: seen), List.filter_filter]
      apply congrArg firstOfEachPrefix
      apply List.filter_congr
      intro x _
      simp only [List.contains_cons, Bool.not_or, bne]

/-- C1: the Retriever's aggregation keeps, for each first-200-character prefix
group occurring in the vector-store results across sub-queries (in sub-query
order), exactly the first document encountered, discarding all later documents
with the same fingerprint: the aggregated document list equals the spec-level
first-of-each-prefix dedup of the flattened result stream. -/
theorem retrieve_documents_dedup (fetch : String → Option (Option (List Triple)))
    (queries : List String) :
    (retrieve_documents fetch queries).documents
      = firstOfEachPrefix (streamDocs fetch queries) := by
  have h := (foldl_retrieveStep_spec fetch queries ⟨[], [], [], []⟩).1
  show (queries.foldl (retrieveStep fetch) ⟨[], [], [], []⟩).documents = _
  rw [h]
  simp only [List.nil_append]
  rw [dedupSeen_eq_firstOfEachPrefix]
  congr 1
  simp

/-! ## The answer-level claims -/

/-- C2: if the Retriever stage yields zero documents, `answer` returns the fixed
Turkish no-information message and the final answer-generation call is never
issued. -/
theorem answer_empty_retrieval_short_circuit (env : Env) (last query hist : String)
    (h : (retrieve_documents env.fetch (generate_multi_queries env query)).documents = []) :
    (answer env last query hist).text = noInfoMsg
      ∧ (answer env last query hist).finalGenCalled = false := by
  have hc : retrieve_context env last query = ("", last) := by
    unfold retrieve_context
    simp [h]
  constructor <;> simp [answer, hc]

/-- Witness for C2: with an empty vector store the fixed message is returned and
no generation is attempted. -/
theorem answer_empty_retrieval_short_circuit_witness :
    (answer envEmptyStore "old" "q" "").text = noInfoMsg
      ∧ (answer envEmptyStore "old" "q" "").finalGenCalled = false :=
  answer_empty_retrieval_short_circuit envEmptyStore "old" "q" "" (by decide)

/-- C4 counterexample: the claim that `answer` returns a fixed error string
without the exception detail is false.  When the final generative call raises
with message "boom" the returned text is the prefix with "boom" appended, it
contains the detail, and it differs from the text returned for a different
detail message (so the string is not fixed). -/
theorem answer_error_counterexample :
    (answer envGenError "" "q" "").text = errPrefix ++ "boom"
      ∧ containsPhrase ((answer envGenError "" "q" "").text) "boom" = true
      ∧ (answer envGenError "" "q" "").text ≠ (answer envGenError2 "" "q" "").text := by
  refine ⟨rfl, by decide, by decide⟩

/-- C4 (amended): on an exception during the final generative call, `answer`
returns the fixed prefix with the exception's detail string appended — the
detail is embedded in the user-facing text rather than suppressed. -/
theorem answer_exception_embeds_detail (env : Env) (last query hist msg : String)
    (hg : env.finalGen = GenOutcome.exn msg)
    (hc : (retrieve_context env last query).1 ≠ "") :
    (answer env last query hist).text = errPrefix ++ msg := by
  unfold answer
  rw [hg]
  simp [hc]

/-- Witness for the amended C4 theorem at a concrete environment. -/
theorem answer_exception_embeds_detail_witness :
    (answer envGenError "x" "q" "").text = errPrefix ++ "boom" :=
  answer_exception_embeds_detail envGenError "x" "q" "" "boom" rfl (by decide)

/-- C5 counterexample: the claim that `last_retrieved_context` is overwritten on
every `answer` call is false for calls whose retrieval yields zero documents:
starting from the previous value "old", the call leaves the field at "old"
even though the context assembled (and returned) during the call is `""`. -/
theorem last_context_counterexample :
    (answer envEmptyStore2 "old" "q" "").lastCtx = "old"
      ∧ (retrieve_context envEmptyStore2 "old" "q").1 = ""
      ∧ ("old" : String) ≠ "" := by
  refine ⟨rfl, rfl, by decide⟩

/-- C5 (amended): `last_retrieved_context` after an `answer` call equals the
context assembled during that call whenever retrieval yields at least one
document, and keeps its previous value when retrieval yields zero documents
(the early return precedes the assignment). -/
theorem last_context_update (env : Env) (last query hist : String) :
    (answer env last query hist).lastCtx =
      if (retrieve_documents env.fetch (generate_multi_queries env query)).documents.isEmpty
      then last
      else (retrieve_context env last query).1 := by
  have hL : (answer env last query hist).lastCtx = (retrieve_context env last query).2 := by
    simp only [answer]
    split
    · rfl
    · split
      · rfl
      · split <;> rfl
  rw [hL]
  by_cases h : (retrieve_documents env.fetch (generate_multi_queries env query)).documents.isEmpty
  · rw [if_pos h]
    unfold retrieve_context
    simp [h]
  · rw [if_neg h]
    unfold retrieve_context
    simp [h]

/-! ## The reranking claims -/

theorem enumFallback_map_fst (documents : List String) (top_k : Nat) :
    (enumFallback documents top_k).map Prod.fst = documents.take top_k := by
  simp only [enumFallback, List.map_map]
  rw [show (Prod.fst ∘ fun p : Nat × String => (p.2, (p.1 : ℚ)))
      = (Prod.snd : Nat × String → String) from rfl]
  rw [List.enum_eq_enumFrom, List.enumFrom_map_snd]

theorem enumFallback_map_snd (documents : List String) (top_k : Nat) :
    (enumFallback documents top_k).map Prod.snd
      = (List.range (min top_k documents.length)).map (fun i : Nat => (i : ℚ)) := by
  have h1 : (enumFallback documents top_k).map Prod.snd
      = ((documents.take top_k).enum.map Prod.fst).map (fun i : Nat => (i : ℚ)) := by
    simp only [enumFallback, List.map_map]
    rfl
  rw [h1, List.enum_eq_enumFrom, List.enumFrom_map_fst, ← List.range_eq_range',
    List.length_take]

/-- C6: with no reranker configured, `rerank` returns exactly the first `top_k`
documents in their input order, each paired with its positional index as a
pseudo-score; with an empty document sequence it returns the empty list for any
reranker. -/
theorem rerank_none_fallback (rtrans : GenOutcome) (q : String)
    (docs : List String) (k : Nat) :
    (rerank_documents rtrans none q docs k).map Prod.fst = docs.take k
      ∧ (rerank_documents rtrans none q docs k).map Prod.snd
          = (List.range (min k docs.length)).map (fun i : Nat => (i : ℚ))
      ∧ ∀ r : Option Predictor, rerank_documents rtrans r q [] k = [] := by
  refine ⟨enumFallback_map_fst docs k, enumFallback_map_snd docs k, ?_⟩
  intro r
  cases r with
  | none => simp [rerank_documents, enumFallback]
  | some r => simp [rerank_documents, enumFallback]

/-- C7: when the cross-encoder succeeds but the top 3 scores of the descending
sort are all below −10, `rerank` discards the score order and returns the first
`top_k` documents in original input order with positional pseudo-scores. -/
theorem rerank_low_confidence_fallback (rtrans : GenOutcome) (r : Predictor)
    (q : String) (docs : List String) (k : Nat) (scores : List ℚ)
    (hd : docs ≠ [])
    (hp : r (mkPairs rtrans q docs) = some scores)
    (h3 : ((sortDescBySnd (docs.zip scores)).take 3).all
        (fun p => decide (p.2 < -10)) = true) :
    rerank_documents rtrans (some r) q docs k = enumFallback docs k := by
  have he : docs.isEmpty = false := List.isEmpty_eq_false.mpr hd
  unfold rerank_documents
  simp [he, hp, h3]

/-- Witness for C7 with a concrete two-document run whose stub scores are −11
and −12. -/
theorem rerank_low_confidence_fallback_witness :
    rerank_documents (GenOutcome.exn "") (some predLow) "q" ["a", "b"] 1
      = enumFallback ["a", "b"] 1 :=
  rerank_low_confidence_fallback (GenOutcome.exn "") predLow "q" ["a", "b"] 1
    [-11, -12] (by decide) rfl (by decide)

theorem mem_insertDescBySnd (x : String × ℚ) : ∀ (l : List (String × ℚ)) (p : String × ℚ),
    p ∈ insertDescBySnd x l → p = x ∨ p ∈ l := by
  intro l
  induction l with
  | nil =>
    intro p hp
    simp only [insertDescBySnd, List.mem_singleton] at hp
    exact Or.inl hp
  | cons y ys ih =>
    intro p hp
    simp only [insertDescBySnd] at hp
    split at hp
    · rcases List.mem_cons.mp hp with h1 | h1
      · exact Or.inr (by simp [h1])
      · rcases ih p h1 with h2 | h2
        · exact Or.inl h2
        · exact Or.inr (by simp [h2])
    · rcases List.mem_cons.mp hp with h1 | h1
      · exact Or.inl h1
      · exact Or.inr h1

theorem mem_sortDescBySnd : ∀ (l : List (String × ℚ)) (p : String × ℚ),
    p ∈ sortDescBySnd l → p ∈ l := by
  intro l
  induction l with
  | nil => intro p hp; simp [sortDescBySnd] at hp
  | cons x xs ih =>
    intro p hp
    rcases mem_insertDescBySnd x (sortDescBySnd xs) p hp with h | h
    · simp [h]
    · simp [ih p h]

theorem mem_insertAscBySnd (x : String × ℚ) : ∀ (l : List (String × ℚ)) (p : String × ℚ),
    p ∈ insertAscBySnd x l → p = x ∨ p ∈ l := by
  intro l
  induction l with
  | nil =>
    intro p hp
    simp only [insertAscBySnd, List.mem_singleton] at hp
    exact Or.inl hp
  | cons y ys ih =>
    intro p hp
    simp only [insertAscBySnd] at hp
    split at hp
    · rcases List.mem_cons.mp hp with h1 | h1
      · exact Or.inr (by simp [h1])
      · rcases ih p h1 with h2 | h2
        · exact Or.inl h2
        · exact Or.inr (by simp [h2])
    · rcases List.mem_cons.mp hp with h1 | h1
      · exact Or.inl h1
      · exact Or.inr h1

theorem mem_sortAscBySnd : ∀ (l : List (String × ℚ)) (p : String × ℚ),
    p ∈ sortAscBySnd l → p ∈ l := by
  intro l
  induction l with
  | nil => intro p hp; simp [sortAscBySnd] at hp
  | cons x xs ih =>
    intro p hp
    rcases mem_insertAscBySnd x (sortAscBySnd xs) p hp with h | h
    · simp [h]
    · simp [ih p h]

theorem enumFallback_mem (documents : List String) (top_k : Nat) (p : String × ℚ)
    (hp : p ∈ enumFallback documents top_k) : p.1 ∈ documents := by
  simp only [enumFallback, List.mem_map] at hp
  rcases hp with ⟨q, hq, rfl⟩
  have h1 : q.2 ∈ (documents.take top_k).enum.map Prod.snd := List.mem_map_of_mem _ hq
  rw [List.enum_eq_enumFrom, List.enumFrom_map_snd] at h1
  exact List.mem_of_mem_take h1

theorem rerank_mem (rtrans : GenOutcome) (reranker : Option Predictor) (q : String)
    (docs : List String) (k : Nat) (p : String × ℚ)
    (hp : p ∈ rerank_documents rtrans reranker q docs k) : p.1 ∈ docs := by
  cases reranker with
  | none => exact enumFallback_mem docs k p hp
  | some r =>
    simp only [rerank_documents] at hp
    split at hp
    · exact enumFallback_mem docs k p hp
    · split at hp
      · exact enumFallback_mem docs k p hp
      · split at hp
        · exact enumFallback_mem docs k p hp
        · have h1 := List.mem_of_mem_take hp
          have h2 := mem_sortDescBySnd _ p h1
          rcases p with ⟨a, b⟩
          exact (List.of_mem_zip h2).1

/-- C10: every (text, score) pair returned by the Reranking Stage carries one of
the input document strings in full (the 400-character truncation is applied
only to the copies handed to the cross-encoder via `mkPairs`), and every
document joined into the context by `retrieve_context` is one of the aggregated
retrieval documents in full. -/
theorem rerank_preserves_full_texts :
    (∀ (rtrans : GenOutcome) (reranker : Option Predictor) (q : String)
        (docs : List String) (k : Nat) (p : String × ℚ),
        p ∈ rerank_documents rtrans reranker q docs k → p.1 ∈ docs)
      ∧ (∀ (env : Env) (q : String) (rr : RetrievalResults) (d : String),
          d ∈ final_docs env q rr → d ∈ rr.documents) := by
  constructor
  · exact fun rtrans reranker q docs k p hp => rerank_mem rtrans reranker q docs k p hp
  · intro env q rr d hd
    unfold final_docs at hd
    split at hd
    · rcases List.mem_map.mp hd with ⟨p, hp, rfl⟩
      exact rerank_mem _ _ _ _ _ p hp
    · rcases List.mem_map.mp hd with ⟨⟨a, b⟩, hp, rfl⟩
      have h1 := List.mem_of_mem_take hp
      have h2 := mem_sortAscBySnd _ _ h1
      exact (List.of_mem_zip h2).1

/-- Witness for C10: a concrete rerank output pair and a concrete final context
document, both among the original input texts. -/
theorem rerank_preserves_full_texts_witness :
    (("a", (0 : ℚ)).1 ∈ (["a"] : List String))
      ∧ ("d" ∈ (RetrievalResults.mk ["d"] ["m"] [0]).documents) := by
  constructor
  · exact rerank_preserves_full_texts.1 (GenOutcome.exn "") none "q" ["a"] 3
      ("a", 0) (by decide)
  · exact rerank_preserves_full_texts.2 envNoReranker "q" ⟨["d"], ["m"], [0]⟩ "d" (by decide)

/-! ## The query-expander claims -/

theorem parseStep_eq (init : List String) (l : String) :
    parseStep init l = init ++ (lineSpec l).toList := by
  unfold parseStep lineSpec
  by_cases h0 : l = ""
  · simp [h0]
  · by_cases h1 : pyStrip l = ""
    · simp [h0, h1]
    · by_cases h2 : (firstChar (pyStrip l)).isDigit
      · by_cases h3 : 3 < (pyStrip l).length
        · simp only [h0, h1, h2, h3]
          simp [h0, h1, h2, h3]
          split <;> simp
        · simp [h0, h1, h2, h3]
      · simp [h0, h1, h2]

theorem parse_generated_eq : ∀ (generated : List String) (queries0 : List String),
    parse_generated generated queries0 = queries0 ++ generated.filterMap lineSpec := by
  intro generated
  induction generated with
  | nil => intro q0; simp [parse_generated]
  | cons l ls ih =>
    intro q0
    show List.foldl parseStep q0 (l :: ls) = _
    rw [List.foldl_cons]
    rw [show List.foldl parseStep (parseStep q0 l) ls
        = parse_generated ls (parseStep q0 l) from rfl]
    rw [ih (parseStep q0 l), parseStep_eq q0 l]
    cases h : lineSpec l with
    | none => simp [List.filterMap_cons, h]
    | some v => simp [List.filterMap_cons, h]

/-- C9 (amended): the variation parser keeps each non-empty stripped line
verbatim when its first character is not a digit (leading non-digit bullet
markers such as '-' included), keeps digit-led lines only when their pre-strip
length exceeds 3 (with leading digits, '.', '-', and spaces stripped and the
remainder trimmed, dropped when empty), and drops all other lines: the parsing
loop equals appending the lines' per-line classification to the collected
queries. -/
theorem parse_generated_semantics (generated queries0 : List String) :
    parse_generated generated queries0 = queries0 ++ generated.filterMap lineSpec :=
  parse_generated_eq generated queries0

/-- C9 counterexample: the claim that every kept line has its leading markers
stripped and that lines with post-strip length at most 3 are discarded is
false.  The line "- hey" is kept verbatim with its leading bullet marker, and
the digit line "1. ab" is kept as "ab", whose post-strip length is 2. -/
theorem parse_marker_counterexample :
    generate_multi_queries envBulletLines "what is x" = ["what is x", "- hey", "ab"]
      ∧ firstChar "- hey" = '-'
      ∧ ("ab" : String).length ≤ 3 := by
  refine ⟨rfl, rfl, by decide⟩

/-- C8 counterexample: the claim that element 0 of the expansion is always
non-empty is false.  With a non-empty original query, a translation response
whose text is whitespace-only strips to the empty string, and a failing
variation call then makes `expand` return a singleton whose element 0 is
empty. -/
theorem expand_empty_element0_counterexample :
    ("hello" : String) ≠ ""
      ∧ generate_multi_queries envWhitespaceTranslate "hello" = [""]
      ∧ (generate_multi_queries envWhitespaceTranslate "hello").headI = "" := by
  refine ⟨by decide, rfl, rfl⟩

/-- C8 (amended): `expand` always returns between 1 and 4 strings, element 0 is
the computed English form of the query, and element 0 is non-empty whenever the
English form is non-empty (it can be empty only when the original query is
empty and translation fails or returns falsy text, or when a successful
translation's text strips to whitespace). -/
theorem expand_bounds (env : Env) (q : String) :
    1 ≤ (generate_multi_queries env q).length
      ∧ (generate_multi_queries env q).length ≤ 4
      ∧ (generate_multi_queries env q).head? = some (english_form env.translateQ q)
      ∧ (english_form env.translateQ q ≠ "" →
          (generate_multi_queries env q).headI ≠ "") := by
  have key : ∃ rest : List String,
      generate_multi_queries env q
        = (english_form env.translateQ q :: rest).take 4 := by
    unfold generate_multi_queries
    cases hv : env.variations with
    | exn m => exact ⟨[], rfl⟩
    | ok t =>
      by_cases h0 : t = ""
      · exact ⟨[], by simp [h0]⟩
      · by_cases h1 : pyStrip t ≠ ""
        · refine ⟨(pySplitLines (pyStrip t)).filterMap lineSpec, ?_⟩
          simp [h0, h1, parse_generated_eq]
        · exact ⟨[], by simp [h0, h1]⟩
  rcases key with ⟨rest, hkey⟩
  rw [hkey, List.take_succ_cons]
  refine ⟨by simp, ?_, rfl, ?_⟩
  · simp only [List.length_cons, List.length_take]
    omega
  · intro h
    simpa using h

/-- Witness for the amended C8 theorem: a plain run with failing expander calls
returns a 1-to-4 element list headed by the non-empty query. -/
theorem expand_bounds_witness :
    1 ≤ (generate_multi_queries envPlainExpand "hi").length
      ∧ (generate_multi_queries envPlainExpand "hi").headI ≠ "" :=
  ⟨(expand_bounds envPlainExpand "hi").1,
   (expand_bounds envPlainExpand "hi").2.2.2 (by decide)⟩

end RedpillRAG
